import Mathlib

/-!
Verification of the eShopCo latency metrics service (`api/index.py`).

The service computes, per region, the mean latency, the 95th percentile of
latency (numpy's default linear-interpolation method), the mean uptime, and
the number of samples whose latency strictly exceeds a caller-supplied
threshold.  Arithmetic is modelled exactly over `ℚ`; Python's `round(x, 2)`
is modelled as rounding to the nearest multiple of `1/100` with ties going
to the even multiple (banker's rounding, Python's documented behaviour).
-/

namespace EShopCo

/-- One telemetry observation for a region: `{latency_ms, uptime}`
(`record["latency_ms"]`, `record["uptime"]` in `api/index.py`). -/
structure Sample where
  latency_ms : ℚ
  uptime : ℚ
deriving DecidableEq

/-- The `RegionMetrics` pydantic model of `api/index.py`. -/
structure RegionMetrics where
  avg_latency : ℚ
  p95_latency : ℚ
  avg_uptime : ℚ
  breaches : ℕ
deriving DecidableEq

/-- Round a rational to the nearest integer, ties to the even integer
(the rounding underlying Python's builtin `round`). -/
def rndHalfEven (q : ℚ) : ℤ :=
  if q - ⌊q⌋ < 1/2 then ⌊q⌋
  else if 1/2 < q - ⌊q⌋ then ⌊q⌋ + 1
  else if ⌊q⌋ % 2 = 0 then ⌊q⌋ else ⌊q⌋ + 1

/-- Python's `round(x, 2)`: round to the nearest multiple of `1/100`,
ties to even. -/
def roundTo2 (q : ℚ) : ℚ := (rndHalfEven (100 * q) : ℚ) / 100

/-- `np.mean(xs)` over exact rationals: sum divided by length. -/
def mean (xs : List ℚ) : ℚ := xs.sum / xs.length

/-- `np.percentile(xs, 95)` with numpy's default linear-interpolation
method: virtual index `r = 95/100 * (n - 1)` into the sorted values,
interpolating between the entries at `⌊r⌋` and `⌈r⌉`.  The sort is
modelled by insertion sort (only the sorted order matters). -/
def percentile95 (xs : List ℚ) : ℚ :=
  let s := List.insertionSort (· ≤ ·) xs
  let r : ℚ := 95 / 100 * ((xs.length : ℚ) - 1)
  let lo := s.getD ⌊r⌋.toNat 0
  let hi := s.getD ⌈r⌉.toNat 0
  lo + (r - (⌊r⌋ : ℚ)) * (hi - lo)

/-- `calculate_metrics(data, threshold_ms)` from `api/index.py`:
zero fallback on an empty list, otherwise the rounded mean latency, rounded
95th-percentile latency, rounded mean uptime, and the count of latencies
strictly above the threshold. -/
def compute (data : List Sample) (threshold_ms : ℚ) : RegionMetrics :=
  if data = [] then
    { avg_latency := 0, p95_latency := 0, avg_uptime := 0, breaches := 0 }
  else
    let latencies := data.map Sample.latency_ms
    let uptimes := data.map Sample.uptime
    { avg_latency := roundTo2 (mean latencies)
      p95_latency := roundTo2 (percentile95 latencies)
      avg_uptime := roundTo2 (mean uptimes)
      breaches := latencies.countP (fun lat => decide (threshold_ms < lat)) }

/-- `np.mean` is undefined (raises a warning, yields nan) on an empty array:
fallible model returning `none` exactly on the empty list. -/
def fallibleMean (xs : List ℚ) : Option ℚ :=
  if xs.isEmpty then none else some (mean xs)

/-- `np.percentile` raises on an empty array: fallible model returning
`none` exactly on the empty list. -/
def falliblePercentile95 (xs : List ℚ) : Option ℚ :=
  if xs.isEmpty then none else some (percentile95 xs)

/-- `calculate_metrics` with the fallible numpy reductions made explicit:
the result is `none` whenever a reduction is applied to an empty list. -/
def calculate_metrics (data : List Sample) (threshold_ms : ℚ) :
    Option RegionMetrics :=
  if data = [] then
    some { avg_latency := 0, p95_latency := 0, avg_uptime := 0, breaches := 0 }
  else
    let latencies := data.map Sample.latency_ms
    let uptimes := data.map Sample.uptime
    match fallibleMean latencies, falliblePercentile95 latencies,
        fallibleMean uptimes with
    | some avgL, some p95, some avgU =>
        some { avg_latency := roundTo2 avgL
               p95_latency := roundTo2 p95
               avg_uptime := roundTo2 avgU
               breaches := latencies.countP (fun lat => decide (threshold_ms < lat)) }
    | _, _, _ => none

/-- The per-region dispatch of `get_metrics` in `api/index.py`: the loaded
telemetry dataset is an association list from region name to samples; a
region present in the dataset is answered by `calculate_metrics` over its
samples, an absent region by the zero-valued `RegionMetrics`. -/
def get_metrics (telemetry : List (String × List Sample))
    (regions : List String) (threshold_ms : ℚ) :
    List (String × RegionMetrics) :=
  regions.map fun region =>
    match telemetry.lookup region with
    | some samples => (region, compute samples threshold_ms)
    | none =>
        (region,
          { avg_latency := 0, p95_latency := 0, avg_uptime := 0, breaches := 0 })

/-- The specification's description of `p95_latency`, stated from the
spec's own words for comparison with `percentile95`: rank
`0.95 * (n - 1)`, linear interpolation between the two bracketing sorted
values. -/
def percentile95Spec (xs : List ℚ) : ℚ :=
  let sortedVals := List.insertionSort (· ≤ ·) xs
  let rank : ℚ := 95 / 100 * ((xs.length : ℚ) - 1)
  let lower := sortedVals.getD ⌊rank⌋.toNat 0
  let upper := sortedVals.getD ⌈rank⌉.toNat 0
  lower + (rank - (⌊rank⌋ : ℚ)) * (upper - lower)

/-- Minimum of a list of rationals (Python's `min`, with an irrelevant
default of `0` for the empty list); used to state the spec's min/max
invariants. -/
def listMin : List ℚ → ℚ
  | [] => 0
  | [x] => x
  | x :: y :: ys => min x (listMin (y :: ys))

/-- Maximum of a list of rationals (Python's `max`, with an irrelevant
default of `0` for the empty list). -/
def listMax : List ℚ → ℚ
  | [] => 0
  | [x] => x
  | x :: y :: ys => max x (listMax (y :: ys))

theorem listMin_le_of_mem : ∀ {xs : List ℚ} {x : ℚ}, x ∈ xs → listMin xs ≤ x
  | [y], x, h => by
      simp only [List.mem_singleton] at h
      simp [listMin, h]
  | y :: z :: zs, x, h => by
      rcases List.mem_cons.mp h with rfl | h'
      · simp [listMin]
      · exact le_trans (min_le_right _ _) (listMin_le_of_mem h')

theorem le_listMax_of_mem : ∀ {xs : List ℚ} {x : ℚ}, x ∈ xs → x ≤ listMax xs
  | [y], x, h => by
      simp only [List.mem_singleton] at h
      simp [listMax, h]
  | y :: z :: zs, x, h => by
      rcases List.mem_cons.mp h with rfl | h'
      · simp [listMax]
      · exact le_trans (le_listMax_of_mem h') (le_max_right _ _)

theorem listMin_le_mean {xs : List ℚ} (h : xs ≠ []) : listMin xs ≤ mean xs := by
  have hlen : 0 < (xs.length : ℚ) := by
    exact_mod_cast List.length_pos.mpr h
  have hsum : xs.length • listMin xs ≤ xs.sum :=
    List.card_nsmul_le_sum xs _ fun x hx => listMin_le_of_mem hx
  rw [nsmul_eq_mul] at hsum
  rw [mean, le_div_iff₀ hlen]
  linarith [hsum]

theorem mean_le_listMax {xs : List ℚ} (h : xs ≠ []) : mean xs ≤ listMax xs := by
  have hlen : 0 < (xs.length : ℚ) := by
    exact_mod_cast List.length_pos.mpr h
  have hsum : xs.sum ≤ xs.length • listMax xs :=
    List.sum_le_card_nsmul xs _ fun x hx => le_listMax_of_mem hx
  rw [nsmul_eq_mul] at hsum
  rw [mean, div_le_iff₀ hlen]
  linarith [hsum]

theorem abs_rndHalfEven_sub_le (q : ℚ) : |(rndHalfEven q : ℚ) - q| ≤ 1/2 := by
  have h0 : ((⌊q⌋ : ℚ)) ≤ q := Int.floor_le q
  have h1 : q < (⌊q⌋ : ℚ) + 1 := Int.lt_floor_add_one q
  unfold rndHalfEven
  split_ifs with h2 h3 h4 <;>
    · rw [abs_le]
      push_cast
      constructor <;> linarith

theorem abs_roundTo2_sub_le (q : ℚ) : |roundTo2 q - q| ≤ 1/200 := by
  have h := abs_rndHalfEven_sub_le (100 * q)
  rw [roundTo2]
  have heq : (rndHalfEven (100 * q) : ℚ) / 100 - q
      = ((rndHalfEven (100 * q) : ℚ) - 100 * q) / 100 := by ring
  rw [heq, abs_div]
  rw [show |(100 : ℚ)| = 100 by norm_num]
  linarith

theorem roundTo2_le (q : ℚ) : roundTo2 q ≤ q + 1/200 := by
  have h := abs_roundTo2_sub_le q
  rw [abs_le] at h
  linarith [h.2]

theorem le_roundTo2 (q : ℚ) : q - 1/200 ≤ roundTo2 q := by
  have h := abs_roundTo2_sub_le q
  rw [abs_le] at h
  linarith [h.1]

theorem interp_le_of_le {lo hi M g : ℚ} (hlo : lo ≤ M) (hhi : hi ≤ M)
    (hg0 : 0 ≤ g) (hg1 : g ≤ 1) : lo + g * (hi - lo) ≤ M := by
  nlinarith [mul_nonneg hg0 (sub_nonneg.mpr hhi),
    mul_nonneg (sub_nonneg.mpr hg1) (sub_nonneg.mpr hlo)]

theorem percentile95_le_listMax {xs : List ℚ} (h : xs ≠ []) :
    percentile95 xs ≤ listMax xs := by
  simp only [percentile95]
  set s := List.insertionSort (· ≤ ·) xs with hs
  set r : ℚ := 95 / 100 * ((xs.length : ℚ) - 1) with hr
  have hperm : List.Perm s xs := List.perm_insertionSort _ xs
  have hslen : s.length = xs.length := hperm.length_eq
  have hn : 0 < xs.length := List.length_pos.mpr h
  have hn1 : (1 : ℚ) ≤ (xs.length : ℚ) := by exact_mod_cast hn
  have hr0 : 0 ≤ r := by
    rw [hr]
    apply mul_nonneg
    · norm_num
    · linarith
  have hr1 : r ≤ (xs.length : ℚ) - 1 := by rw [hr]; nlinarith
  have hcast : ((xs.length : ℚ) - 1) = (((xs.length : ℤ) - 1 : ℤ) : ℚ) := by
    push_cast
    ring
  have hfl1 : ⌊r⌋ ≤ (xs.length : ℤ) - 1 := by
    have hmono := Int.floor_le_floor hr1
    rw [hcast, Int.floor_intCast] at hmono
    exact hmono
  have hfl0 : 0 ≤ ⌊r⌋ := Int.floor_nonneg.mpr hr0
  have hcl1 : ⌈r⌉ ≤ (xs.length : ℤ) - 1 := by
    have hmono := Int.ceil_le_ceil hr1
    rw [hcast, Int.ceil_intCast] at hmono
    exact hmono
  have hilt : ⌊r⌋.toNat < s.length := by rw [hslen]; omega
  have hjlt : ⌈r⌉.toNat < s.length := by rw [hslen]; omega
  have hlo : s.getD ⌊r⌋.toNat 0 ≤ listMax xs := by
    rw [List.getD_eq_getElem s 0 hilt]
    exact le_listMax_of_mem (hperm.mem_iff.mp (List.getElem_mem hilt))
  have hhi : s.getD ⌈r⌉.toNat 0 ≤ listMax xs := by
    rw [List.getD_eq_getElem s 0 hjlt]
    exact le_listMax_of_mem (hperm.mem_iff.mp (List.getElem_mem hjlt))
  have hg0 : 0 ≤ r - (⌊r⌋ : ℚ) := sub_nonneg.mpr (Int.floor_le r)
  have hg1 : r - (⌊r⌋ : ℚ) ≤ 1 := by linarith [Int.lt_floor_add_one r]
  exact interp_le_of_le hlo hhi hg0 hg1

theorem mean_perm {l₁ l₂ : List ℚ} (h : List.Perm l₁ l₂) : mean l₁ = mean l₂ := by
  rw [mean, mean, h.sum_eq, h.length_eq]

theorem insertionSort_perm_eq {l₁ l₂ : List ℚ} (h : List.Perm l₁ l₂) :
    List.insertionSort (· ≤ ·) l₁ = List.insertionSort (· ≤ ·) l₂ :=
  List.eq_of_perm_of_sorted
    ((List.perm_insertionSort _ l₁).trans (h.trans (List.perm_insertionSort _ l₂).symm))
    (List.sorted_insertionSort _ _) (List.sorted_insertionSort _ _)

theorem percentile95_perm {l₁ l₂ : List ℚ} (h : List.Perm l₁ l₂) :
    percentile95 l₁ = percentile95 l₂ := by
  rw [percentile95, percentile95, insertionSort_perm_eq h, h.length_eq]

theorem compute_of_ne_nil (data : List Sample) (t : ℚ) (h : data ≠ []) :
    compute data t =
      { avg_latency := roundTo2 (mean (data.map Sample.latency_ms))
        p95_latency := roundTo2 (percentile95 (data.map Sample.latency_ms))
        avg_uptime := roundTo2 (mean (data.map Sample.uptime))
        breaches := (data.map Sample.latency_ms).countP
          (fun lat => decide (t < lat)) } := by
  simp [compute, h]

theorem mean_singleton (x : ℚ) : mean [x] = x := by
  simp [mean]

theorem percentile95_singleton (x : ℚ) : percentile95 [x] = x := by
  simp only [percentile95]
  norm_num [List.insertionSort, List.orderedInsert, List.getD]

theorem countP_singleton_lt (l t : ℚ) :
    List.countP (fun lat => decide (t < lat)) [l] = if t < l then 1 else 0 := by
  simp [List.countP_cons]

theorem compute_singleton (l u t : ℚ) :
    compute [⟨l, u⟩] t =
      { avg_latency := roundTo2 l
        p95_latency := roundTo2 l
        avg_uptime := roundTo2 u
        breaches := if t < l then 1 else 0 } := by
  rw [compute_of_ne_nil _ _ (by simp)]
  simp only [List.map_cons, List.map_nil]
  rw [mean_singleton, mean_singleton, percentile95_singleton, countP_singleton_lt]

theorem percentile95_eq_spec (xs : List ℚ) : percentile95 xs = percentile95Spec xs := rfl

theorem percentile95_example : percentile95 [(100:ℚ), 150, 200] = 195 := by
  have hsort : List.insertionSort (· ≤ ·) [(100:ℚ), 150, 200] = [100, 150, 200] := by
    norm_num [List.insertionSort, List.orderedInsert]
  have hlen : (([(100:ℚ), 150, 200].length : ℚ) - 1) = 2 := by norm_num
  simp only [percentile95, hsort, hlen]
  rw [show (95:ℚ) / 100 * 2 = 19/10 by norm_num]
  rw [show ⌈(19:ℚ)/10⌉ = 2 by rw [Int.ceil_eq_iff]; norm_num]
  rw [show ⌊(19:ℚ)/10⌋ = 1 by norm_num]
  rw [show List.getD [(100:ℚ), 150, 200] (Int.toNat 1) 0 = 150 from rfl]
  rw [show List.getD [(100:ℚ), 150, 200] (Int.toNat 2) 0 = 200 from rfl]
  norm_num

/-- Claim C1: for every non-empty list of samples and every threshold,
`calculate_metrics` returns `avg_latency` equal to the arithmetic mean of
the `latency_ms` values rounded to 2 decimal places, and `avg_uptime`
equal to the arithmetic mean of the `uptime` values rounded to 2 decimal
places. -/
theorem avg_fields_are_rounded_means (data : List Sample) (t : ℚ)
    (h : data ≠ []) :
    (compute data t).avg_latency
        = roundTo2 ((data.map Sample.latency_ms).sum
            / ((data.map Sample.latency_ms).length : ℚ))
      ∧ (compute data t).avg_uptime
        = roundTo2 ((data.map Sample.uptime).sum
            / ((data.map Sample.uptime).length : ℚ)) := by
  rw [compute_of_ne_nil data t h]
  exact ⟨rfl, rfl⟩

/-- Witness for C1 at the spec's worked example. -/
theorem avg_fields_are_rounded_means_witness :
    (([⟨100, 99/100⟩, ⟨150, 95/100⟩, ⟨200, 9/10⟩] : List Sample) ≠ []) ∧
    ((compute [⟨100, 99/100⟩, ⟨150, 95/100⟩, ⟨200, 9/10⟩] 140).avg_latency
        = roundTo2
            ((([⟨100, 99/100⟩, ⟨150, 95/100⟩, ⟨200, 9/10⟩] : List Sample).map
                Sample.latency_ms).sum
              / ((([⟨100, 99/100⟩, ⟨150, 95/100⟩, ⟨200, 9/10⟩] : List Sample).map
                Sample.latency_ms).length : ℚ))
      ∧ (compute [⟨100, 99/100⟩, ⟨150, 95/100⟩, ⟨200, 9/10⟩] 140).avg_uptime
        = roundTo2
            ((([⟨100, 99/100⟩, ⟨150, 95/100⟩, ⟨200, 9/10⟩] : List Sample).map
                Sample.uptime).sum
              / ((([⟨100, 99/100⟩, ⟨150, 95/100⟩, ⟨200, 9/10⟩] : List Sample).map
                Sample.uptime).length : ℚ))) :=
  ⟨by simp, avg_fields_are_rounded_means _ 140 (by simp)⟩

/-- Claim C2: for every non-empty list of samples, `p95_latency` equals the
95th percentile of the `latency_ms` values computed by linear interpolation
between closest ranks (rank `0.95 * (n - 1)`, interpolating between the two
bracketing sorted values), rounded to 2 decimal places; in particular, on
the samples `(100, 0.99), (150, 0.95), (200, 0.90)` the returned
`p95_latency` is `195`. -/
theorem p95_is_linear_interpolation :
    (∀ (data : List Sample) (t : ℚ), data ≠ [] →
        (compute data t).p95_latency
          = roundTo2 (percentile95Spec (data.map Sample.latency_ms))) ∧
    (compute [⟨100, 99/100⟩, ⟨150, 95/100⟩, ⟨200, 9/10⟩] 140).p95_latency
      = 195 := by
  constructor
  · intro data t h
    rw [compute_of_ne_nil data t h]
    dsimp only
    rw [percentile95_eq_spec]
  · have hmap : ([⟨100, 99/100⟩, ⟨150, 95/100⟩, ⟨200, 9/10⟩] : List Sample).map
        Sample.latency_ms = [100, 150, 200] := rfl
    rw [compute_of_ne_nil _ _ (by simp)]
    dsimp only
    rw [hmap, percentile95_example]
    norm_num [roundTo2, rndHalfEven]

/-- Witness for C2's universally quantified part at a singleton list. -/
theorem p95_is_linear_interpolation_witness :
    (([⟨100, 99/100⟩] : List Sample) ≠ []) ∧
    (compute [⟨100, 99/100⟩] 50).p95_latency
      = roundTo2 (percentile95Spec
          (([⟨100, 99/100⟩] : List Sample).map Sample.latency_ms)) :=
  ⟨by simp, p95_is_linear_interpolation.1 _ 50 (by simp)⟩

/-- Claim C3: for every list of samples and every threshold (including zero
and negative values), `breaches` is the number of samples whose
`latency_ms` strictly exceeds the threshold; a sample equal to the
threshold is not counted. -/
theorem breaches_counts_strict_exceedances (data : List Sample) (t : ℚ) :
    (compute data t).breaches
      = data.countP (fun s => decide (t < s.latency_ms)) := by
  rcases eq_or_ne data [] with rfl | h
  · simp [compute]
  · rw [compute_of_ne_nil data t h]
    dsimp only
    rw [List.countP_map]
    rfl

/-- Claim C4: for every threshold, `calculate_metrics` on an empty sample
list returns the zero-valued `RegionMetrics` as a defined result, not an
error (the fallible model returns `some`). -/
theorem empty_samples_zero_fallback (t : ℚ) :
    compute [] t
        = { avg_latency := 0, p95_latency := 0, avg_uptime := 0, breaches := 0 }
      ∧ calculate_metrics [] t
        = some (⟨0, 0, 0, 0⟩ : RegionMetrics) := by
  constructor <;> simp [compute, calculate_metrics]

/-- Claim C5: for every dataset, requested region and threshold, the
per-region dispatch of `get_metrics` answers a region present in the
dataset with `calculate_metrics` over its samples, and an absent region
with the same zero-valued `RegionMetrics` produced for an empty sample
list. -/
theorem region_dispatch_policy (telemetry : List (String × List Sample))
    (regions : List String) (t : ℚ) (region : String) (h : region ∈ regions) :
    ((∃ samples, telemetry.lookup region = some samples ∧
        (region, compute samples t) ∈ get_metrics telemetry regions t) ∨
      (telemetry.lookup region = none ∧
        (region, compute [] t) ∈ get_metrics telemetry regions t)) ∧
    compute [] t
      = { avg_latency := 0, p95_latency := 0, avg_uptime := 0,
          breaches := 0 } := by
  have hz : compute ([] : List Sample) t
      = { avg_latency := 0, p95_latency := 0, avg_uptime := 0,
          breaches := 0 } := by
    simp [compute]
  refine ⟨?_, hz⟩
  cases hlk : telemetry.lookup region with
  | none =>
      right
      refine ⟨rfl, ?_⟩
      rw [hz]
      exact List.mem_map.mpr ⟨region, h, by rw [hlk]⟩
  | some samples =>
      left
      exact ⟨samples, rfl, List.mem_map.mpr ⟨region, h, by rw [hlk]⟩⟩

/-- Witness for C5 at a concrete dataset, one known and one unknown
region. -/
theorem region_dispatch_policy_witness :
    ("apac" ∈ ["emea", "apac"]) ∧
    (((∃ samples,
        ([("emea", [(⟨100, 1⟩ : Sample)])]).lookup "apac" = some samples ∧
        ("apac", compute samples 50)
          ∈ get_metrics [("emea", [⟨100, 1⟩])] ["emea", "apac"] 50) ∨
      (([("emea", [(⟨100, 1⟩ : Sample)])]).lookup "apac" = none ∧
        ("apac", compute [] 50)
          ∈ get_metrics [("emea", [⟨100, 1⟩])] ["emea", "apac"] 50)) ∧
    compute [] 50
      = { avg_latency := 0, p95_latency := 0, avg_uptime := 0,
          breaches := 0 }) :=
  ⟨by simp, region_dispatch_policy [("emea", [⟨100, 1⟩])] ["emea", "apac"] 50
    "apac" (by simp)⟩

/-- Claim C8: for a fixed list of samples, the breach count is monotonically
non-increasing in the threshold: if `t1 ≤ t2` then the breaches at `t2` are
at most the breaches at `t1`. -/
theorem breaches_antitone_in_threshold (data : List Sample) (t1 t2 : ℚ)
    (h : t1 ≤ t2) :
    (compute data t2).breaches ≤ (compute data t1).breaches := by
  rcases eq_or_ne data [] with rfl | hne
  · simp [compute]
  · rw [compute_of_ne_nil data t1 hne, compute_of_ne_nil data t2 hne]
    dsimp only
    apply List.countP_mono_left
    intro x _ hx
    simp only [decide_eq_true_eq] at hx ⊢
    linarith

/-- Witness for C8 at the spec's worked example and thresholds 140 and
160. -/
theorem breaches_antitone_in_threshold_witness :
    ((140:ℚ) ≤ 160) ∧
    (compute ([⟨100, 99/100⟩, ⟨150, 95/100⟩, ⟨200, 9/10⟩] : List Sample)
        160).breaches
      ≤ (compute [⟨100, 99/100⟩, ⟨150, 95/100⟩, ⟨200, 9/10⟩] 140).breaches :=
  ⟨by norm_num, breaches_antitone_in_threshold _ 140 160 (by norm_num)⟩

/-- Claim C9: `calculate_metrics` is order-independent: permuting the sample
list does not change the resulting `RegionMetrics`. -/
theorem compute_order_independent (data data' : List Sample) (t : ℚ)
    (h : List.Perm data data') : compute data t = compute data' t := by
  rcases eq_or_ne data [] with rfl | hne
  · have : data' = [] := h.symm.eq_nil
    rw [this]
  · have hne' : data' ≠ [] := by
      intro e
      rw [e] at h
      exact hne h.eq_nil
    rw [compute_of_ne_nil data t hne, compute_of_ne_nil data' t hne']
    have hl : List.Perm (data.map Sample.latency_ms)
        (data'.map Sample.latency_ms) := h.map _
    have hu : List.Perm (data.map Sample.uptime) (data'.map Sample.uptime) :=
      h.map _
    rw [mean_perm hl, mean_perm hu, percentile95_perm hl, hl.countP_eq]

/-- Witness for C9 at a two-element list and its transposition. -/
theorem compute_order_independent_witness :
    List.Perm ([⟨200, 9/10⟩, ⟨100, 99/100⟩] : List Sample)
        [⟨100, 99/100⟩, ⟨200, 9/10⟩] ∧
    compute [⟨200, 9/10⟩, ⟨100, 99/100⟩] 140
      = compute [⟨100, 99/100⟩, ⟨200, 9/10⟩] 140 :=
  ⟨List.Perm.swap (⟨100, 99/100⟩ : Sample) (⟨200, 9/10⟩ : Sample) [],
    compute_order_independent _ _ 140
      (List.Perm.swap (⟨100, 99/100⟩ : Sample) (⟨200, 9/10⟩ : Sample) [])⟩

/-- Claim C10: `calculate_metrics` is total and never fails: the empty-list
branch is taken before any mean or percentile is computed, so the fallible
reductions are only ever applied to non-empty lists and the result is
always `some` of the total computation. -/
theorem calculate_metrics_total (data : List Sample) (t : ℚ) :
    calculate_metrics data t = some (compute data t) := by
  cases data with
  | nil => simp [calculate_metrics, compute]
  | cons a l =>
      simp [calculate_metrics, compute, fallibleMean, falliblePercentile95]

/-- Counterexample to C6 as stated: for the single sample with latency
`1/250 = 0.004`, the returned `avg_latency` is `round(0.004, 2) = 0`,
which lies strictly below the minimum input latency `0.004`. -/
theorem avg_bounds_counterexample :
    (([⟨1/250, 1/250⟩] : List Sample) ≠ []) ∧
    ¬ (listMin (([⟨1/250, 1/250⟩] : List Sample).map Sample.latency_ms)
        ≤ (compute [⟨1/250, 1/250⟩] 0).avg_latency) := by
  refine ⟨by simp, ?_⟩
  rw [compute_singleton]
  show ¬ (listMin [1/250] ≤ roundTo2 (1/250))
  have hr : roundTo2 (1/250) = 0 := by norm_num [roundTo2, rndHalfEven]
  rw [hr]
  norm_num [listMin]

/-- Claim C6 (amended): the returned `avg_latency` and `avg_uptime` are the
rounded means, so they lie within the min/max bounds of their inputs only
up to the maximum rounding error `1/200 = 0.005`. -/
theorem avg_within_rounding_of_bounds (data : List Sample) (t : ℚ)
    (h : data ≠ []) :
    listMin (data.map Sample.latency_ms) - 1/200
        ≤ (compute data t).avg_latency ∧
      (compute data t).avg_latency
        ≤ listMax (data.map Sample.latency_ms) + 1/200 ∧
      listMin (data.map Sample.uptime) - 1/200
        ≤ (compute data t).avg_uptime ∧
      (compute data t).avg_uptime
        ≤ listMax (data.map Sample.uptime) + 1/200 := by
  rw [compute_of_ne_nil data t h]
  have hlat : data.map Sample.latency_ms ≠ [] := by simpa using h
  have hup : data.map Sample.uptime ≠ [] := by simpa using h
  dsimp only
  refine ⟨?_, ?_, ?_, ?_⟩
  · linarith [le_roundTo2 (mean (data.map Sample.latency_ms)),
      listMin_le_mean hlat]
  · linarith [roundTo2_le (mean (data.map Sample.latency_ms)),
      mean_le_listMax hlat]
  · linarith [le_roundTo2 (mean (data.map Sample.uptime)),
      listMin_le_mean hup]
  · linarith [roundTo2_le (mean (data.map Sample.uptime)),
      mean_le_listMax hup]

/-- Witness for the amended C6 at a singleton list. -/
theorem avg_within_rounding_of_bounds_witness :
    (([⟨100, 99/100⟩] : List Sample) ≠ []) ∧
    (listMin (([⟨100, 99/100⟩] : List Sample).map Sample.latency_ms) - 1/200
        ≤ (compute [⟨100, 99/100⟩] 50).avg_latency ∧
      (compute [⟨100, 99/100⟩] 50).avg_latency
        ≤ listMax (([⟨100, 99/100⟩] : List Sample).map Sample.latency_ms)
          + 1/200 ∧
      listMin (([⟨100, 99/100⟩] : List Sample).map Sample.uptime) - 1/200
        ≤ (compute [⟨100, 99/100⟩] 50).avg_uptime ∧
      (compute [⟨100, 99/100⟩] 50).avg_uptime
        ≤ listMax (([⟨100, 99/100⟩] : List Sample).map Sample.uptime)
          + 1/200) :=
  ⟨by simp, avg_within_rounding_of_bounds _ 50 (by simp)⟩

/-- Counterexample to C7 as stated: for the single sample with latency
`3/500 = 0.006`, the returned `p95_latency` is `round(0.006, 2) = 0.01`,
which exceeds the maximum input latency `0.006`. -/
theorem p95_max_counterexample :
    (([⟨3/500, 0⟩] : List Sample) ≠ []) ∧
    ¬ ((compute [⟨3/500, 0⟩] 0).p95_latency
        ≤ listMax (([⟨3/500, 0⟩] : List Sample).map Sample.latency_ms)) := by
  refine ⟨by simp, ?_⟩
  rw [compute_singleton]
  show ¬ (roundTo2 (3/500) ≤ listMax [3/500])
  have hr : roundTo2 (3/500) = 1/100 := by norm_num [roundTo2, rndHalfEven]
  rw [hr]
  norm_num [listMax]

/-- Claim C7 (amended): the returned `p95_latency` is the rounded
percentile, so it is bounded by the maximum input latency only up to the
maximum rounding error `1/200 = 0.005`. -/
theorem p95_le_max_within_rounding (data : List Sample) (t : ℚ)
    (h : data ≠ []) :
    (compute data t).p95_latency
      ≤ listMax (data.map Sample.latency_ms) + 1/200 := by
  rw [compute_of_ne_nil data t h]
  dsimp only
  have hlat : data.map Sample.latency_ms ≠ [] := by simpa using h
  linarith [roundTo2_le (percentile95 (data.map Sample.latency_ms)),
    percentile95_le_listMax hlat]

/-- Witness for the amended C7 at a singleton list. -/
theorem p95_le_max_within_rounding_witness :
    (([⟨100, 99/100⟩] : List Sample) ≠ []) ∧
    (compute [⟨100, 99/100⟩] 50).p95_latency
      ≤ listMax (([⟨100, 99/100⟩] : List Sample).map Sample.latency_ms)
        + 1/200 :=
  ⟨by simp, p95_le_max_within_rounding _ 50 (by simp)⟩

end EShopCo
